import Mathlib

/-!
Verification of the `rotate` library (size/count-bounded rotation of an
append-only file) against its natural-language specification.

The development is a shallow embedding of `rotate.go`:

* file names are lists of characters (`Name`); the empty list models Go's
  `""` sentinel used for empty chain slots;
* the on-disk state is the list of existing file names (`Fs`);
* filesystem primitives (`os.Remove`, `os.Rename`, `os.OpenFile`) are
  explicit functions on `Fs` that also emit a trace of attempted
  operations (`FsOp`); `os.Remove`/`os.Rename` fail exactly when the
  source name does not exist, `os.OpenFile` success is an explicit
  parameter (`openOk`) since it depends on the host environment;
* Go panics (slice-bounds violations, the `panic` calls in `Split` and
  `New`) are modelled by `Option`/dedicated constructors: a `none`
  result means the Go code panics instead of returning;
* machine integers (`int64`) are modelled by `Int`/`Nat` with the
  int64 upper bound (`int64Max`) made explicit where the code can
  overflow (`strconv.ParseInt`).
-/

namespace Rotate

/-- A file name, as a list of characters (Go strings of ASCII names).
`[]` models Go's empty string, used by the code as the "empty slot"
sentinel in the rotation chain. -/
abbrev Name := List Char

/-- Fuel-driven digit extraction (structural recursion on the fuel so
that the kernel can evaluate it; the fuel is always sufficient below). -/
def leDigitsAux : Nat → Nat → List Nat
  | _, 0 => []
  | 0, _ + 1 => []
  | f + 1, n + 1 => ((n + 1) % 10) :: leDigitsAux f ((n + 1) / 10)

/-- The decimal digits of `n`, least significant first
(`leDigits 120 = [0, 2, 1]`, `leDigits 0 = []`). -/
def leDigits (n : Nat) : List Nat := leDigitsAux n n

/-- The decimal digits of `n`, most significant first. -/
def digitsBE (n : Nat) : List Nat := (leDigits n).reverse

/-- The character for decimal digit `d` (`digitChar 7 = '7'`). -/
def digitChar (d : Nat) : Char := Char.ofNat (48 + d)

/-- Decimal rendering of `n`, as produced by Go's `fmt.Sprintf("%d", n)`:
plain decimal, no leading zeros, `0` rendered as `"0"`. -/
def repDec (n : Nat) : Name :=
  if n = 0 then ['0'] else (digitsBE n).map digitChar

/-- Numeric value of a big-endian digit list (`parseBE [1,2,0] = 120`). -/
def parseBE (ds : List Nat) : Nat := ds.foldl (fun a d => a * 10 + d) 0

/-- Numeric value of a decimal digit character. -/
def charVal (c : Char) : Nat := c.toNat - 48

/-- Numeric value of a name made of decimal digit characters, as parsed by
`strconv.ParseInt(s, 10, 64)` on its success path. -/
def parseName (s : Name) : Nat := parseBE (s.map charVal)

/-- `math.MaxInt64`: the largest value `strconv.ParseInt(_, 10, 64)`
accepts before reporting a range error. -/
def int64Max : Nat := 9223372036854775807

/-- Whether `c` is one of the digits `1`..`9` — the character class
`[1-9]` of the source's suffix pattern `SuffixRe = (\.[1-9]+)?$`.
Note the class excludes `0`. -/
def isDigit19 (c : Char) : Bool := 49 ≤ c.toNat && c.toNat ≤ 57

/--
`Split` from `rotate.go`:

```go
// SuffixRe is a pattern of rotation counter suffix.
const SuffixRe = `(\.[1-9]+)?$`
func Split(name string) (base string, n int64) {
    v := suffixRe.FindStringSubmatch(name)
    if v == nil || v[1] == "" { base = name; return }
    base = strings.TrimSuffix(name, v[1])
    n, err := strconv.ParseInt(v[1][1:], 10, 64)
    if err != nil { panic("invalid suffix regexp") }
    return
}
```

The leftmost match of the anchored pattern `(\.[1-9]+)?$` has a non-empty
group exactly when the name ends in `'.'` followed by a non-empty run of
digits `1`-`9`; since no character of the run may be a dot, the group is
exactly the maximal trailing `[1-9]` run together with the dot just
before it.  We compute that run from the reversed name.  `ParseInt`
fails (only) when the digits exceed `int64Max`, in which case `Split`
panics — modelled by `none`. -/
def splitGo (name : Name) : Option (Name × Nat) :=
  let rrun := name.reverse.takeWhile isDigit19
  let rest := name.reverse.dropWhile isDigit19
  if rrun.isEmpty then some (name, 0)
  else
    match rest with
    | '.' :: rb =>
        let v := parseName rrun.reverse
        if v ≤ int64Max then some (rb.reverse, v) else none
    | _ => some (name, 0)

/-- `fmt.Sprintf("%s.%d", base, n)`, used by `shift` to render the new
name of a chain slot; also the `render` operation of the spec's name
codec (§4.1). -/
def render (base : Name) (n : Nat) : Name := base ++ '.' :: repDec n

/--
`shift` from `rotate.go`:

```go
func shift(names []string) []string {
    t := make([]string, len(names))
    for i, s := range names {
        if s == "" { break }
        base, n := Split(s)
        t[i] = fmt.Sprintf("%s.%d", base, n+1)
    }
    return t
}
```

The loop breaks at the first empty slot, leaving the remaining entries
of `t` as `""` (Go zero values).  A panic inside `Split` propagates
(`none`). -/
def shiftGo : List Name → Option (List Name)
  | [] => some []
  | s :: rest =>
      if s.isEmpty then some (List.replicate (rest.length + 1) [])
      else do
        let (b, n) ← splitGo s
        let t ← shiftGo rest
        pure (render b (n + 1) :: t)

/-- `dropPre b s`: `some r` iff `s = b ++ r` (helper for literal prefix
matching). -/
def dropPre : Name → Name → Option Name
  | [], s => some s
  | _ :: _, [] => none
  | b :: bs, c :: cs => if b = c then dropPre bs cs else none

/--
The regular expression built by `toRegexp`:

```go
func toRegexp(name string) (*regexp.Regexp, error) {
    name = strings.Replace(name, `.`, `\.`, -1)
    p, err := regexp.Compile(`^` + name + SuffixRe)
    ...
}
```

i.e. `^<name-with-dots-escaped>(\.[1-9]+)?$`.  `matchGo base s` holds
iff `s` is `base` itself or `base` followed by `'.'` and a non-empty
run of digits `1`-`9`.  (Only dots of `base` are escaped by the source;
the model assumes `base` contains no other regexp metacharacter, which
holds for ordinary file names.) -/
def matchGo (base s : Name) : Bool :=
  if s = base then true
  else
    match dropPre base s with
    | some ('.' :: d) => !d.isEmpty && d.all isDigit19
    | _ => false

/-- A directory entry seen by `filepath.Walk`: a name and whether it is
a subdirectory. -/
structure DirEntry where
  name : Name
  isDir : Bool
deriving DecidableEq

/-- The directory scanned by `List`: the base name of the directory
itself (`filepath.Walk` visits the root first, and the walk function
checks the root's own name against the pattern before any entry) and
its immediate entries. -/
structure Dir where
  rootBase : Name
  entries : List DirEntry
deriving DecidableEq

/--
`List` from `rotate.go`:

```go
func List(root, name string) ([]string, error) {
    base := filepath.Base(name)
    re, err := toRegexp(base)
    ...
    err = filepath.Walk(root, func(wpath string, info os.FileInfo, err error) error {
        if err != nil { return err }
        if info.IsDir() && wpath != root { return filepath.SkipDir }
        s := filepath.Base(info.Name())
        if re.MatchString(s) { names = append(names, s) }
        return nil
    })
    ...
    sort.Strings(names)
    return names, nil
}
```

The walk visits the root (whose own base name is pattern-checked, the
`wpath != root` guard only skips *sub*directories) and every immediate
entry; subdirectory entries hit `SkipDir` *before* the match check and
are excluded; matches are sorted byte-lexicographically
(`sort.Strings`).  The model takes `name` to be a bare file name
(`filepath.Base(name) = name`). -/
def ListGo (d : Dir) (name : Name) : List Name :=
  let cands := d.rootBase :: (d.entries.filter (fun e => !e.isDir)).map DirEntry.name
  List.insertionSort (· ≤ ·) (cands.filter (matchGo name))

/-- Attempted filesystem operations, for observing what a rotation did
on disk. -/
inductive FsOp where
  | remove (name : Name)
  | rename (old new : Name)
  | openf (name : Name)
deriving DecidableEq

/-- The set of files on disk, as a list of names. -/
abbrev Fs := List Name

/-- `os.Remove`: fails (`none`) iff the name does not exist. -/
def fsRemove (fs : Fs) (n : Name) : Option Fs :=
  if n ∈ fs then some (fs.erase n) else none

/-- `os.Rename`: fails (`none`) iff the source does not exist; on
success the destination is overwritten. -/
def fsRename (fs : Fs) (old nw : Name) : Option Fs :=
  if old ∈ fs then some (nw :: (fs.erase old).erase nw) else none

/-- Result of `rotator.rename`: the updated chain (`r.names`), the
filesystem, the trace of attempted operations, and `Error.Filename`
when an error was returned. -/
structure RenameRes where
  names : List Name
  fs : Fs
  trace : List FsOp
  err : Option Name
deriving DecidableEq

/-- The rename loop of `rotator.rename`:

```go
var i int
for i = len(r.names) - 1; i >= 0; i-- {
    if r.names[i] == "" { continue }
    err = os.Rename(r.abs(r.names[i]), r.abs(names[i]))
    if err != nil { err = &Error{Filename: r.names[i], Err: err}; break }
}
```

`renameLoop orig shifted k fs tr` processes indices `k-1` down to `0`;
it returns the filesystem, the trace, and `some i` when the rename at
index `i` failed (`i` is then the loop's final value; `none` models the
loop running to `i = -1`). -/
def renameLoop (orig shifted : List Name) : Nat → Fs → List FsOp →
    Fs × List FsOp × Option Nat
  | 0, fs, tr => (fs, tr, none)
  | k + 1, fs, tr =>
      let s := orig.getD k []
      if s.isEmpty then renameLoop orig shifted k fs tr
      else
        let t := shifted.getD k []
        match fsRename fs s t with
        | some fs' => renameLoop orig shifted k fs' (tr ++ [.rename s t])
        | none => (fs, tr ++ [.rename s t], some k)

/-- Go's `copy(dst[start:start+cnt], src[start:start+cnt])` for
index-aligned slices: replaces `cnt` entries of `dst` starting at
`start` by the corresponding entries of `src`. -/
def copySeg : List Name → List Name → Nat → Nat → List Name
  | dst, _, _, 0 => dst
  | dst, src, st, c + 1 => copySeg (dst.set st (src.getD st [])) src (st + 1) c

/-- The part of `rotator.rename` after the eviction step: `shift`, the
rename loop, and the final chain fix-up

```go
if i == -1 { // renamed all
    copy(r.names[1:], names)
} else {
    // leave last empty (removed)
    copy(r.names[i+1:len(names)-2], names[i+1:])
}
```

On full success the chain becomes `r.names[0]` followed by the first
`len-1` shifted names.  On failure at index `i`, Go's slice expression
`r.names[i+1 : len(names)-2]` requires `i+1 ≤ len(names)-2` (as signed
integers) and otherwise panics (`none`); when legal, it copies the
shifted names into positions `i+1 .. len-3` only. -/
def renameAfterEvict (names1 : List Name) (fs1 : Fs) (tr1 : List FsOp) :
    Option RenameRes :=
  match shiftGo names1 with
  | none => none
  | some shifted =>
      let L := names1.length
      match renameLoop names1 shifted L fs1 tr1 with
      | (fs2, tr2, none) =>
          some ⟨names1.getD 0 [] :: shifted.take (L - 1), fs2, tr2, none⟩
      | (fs2, tr2, some i) =>
          if i + 3 > L then none
          else some ⟨copySeg names1 shifted (i + 1) (L - 2 - (i + 1)), fs2, tr2,
                     some (names1.getD i [])⟩

/--
`rotator.rename` from `rotate.go`:

```go
func (r *rotator) rename() (err error) {
    if s := r.names[len(r.names)-1]; s != "" {
        err = os.Remove(r.abs(s))
        if err != nil { return &Error{Filename: s, Err: err} }
        r.names[len(r.names)-1] = ""
    }
    names := shift(r.names)
    ... // rename loop and chain fix-up, see renameLoop/renameAfterEvict
}
```
-/
def renameGo (names0 : List Name) (fs0 : Fs) : Option RenameRes :=
  let L := names0.length
  let last := names0.getD (L - 1) []
  if last.isEmpty then renameAfterEvict names0 fs0 []
  else
    match fsRemove fs0 last with
    | none => some ⟨names0, fs0, [.remove last], some last⟩
    | some fs1 => renameAfterEvict (names0.set (L - 1) []) fs1 [.remove last]

/-- The mutable state of a `rotator`: the live handle (`r.f`, modelled
as an id), `r.name` (the name captured from `names[0]` at construction,
reopened on rotation) and the chain `r.names`.  The root path and file
mode are construction-time constants and are dropped (`abs` only
prepends the root). -/
structure RotState where
  f : Nat
  name : Name
  names : List Name
deriving DecidableEq

/-- The error cases of `rotator.Rotate`: a wrapped `*Error` from the
rename pass (carrying `Error.Filename`), or the raw `os.OpenFile` error
from `reopen`. -/
inductive RErr where
  | rename (filename : Name)
  | reopen
deriving DecidableEq

/-- Result of `rotator.Rotate`: the updated rotator state (its `f` field
is the returned handle), filesystem, trace, error. -/
structure RotateRes where
  st : RotState
  fs : Fs
  trace : List FsOp
  err : Option RErr
deriving DecidableEq

/--
`rotator.reopen`:

```go
func (r *rotator) reopen() error {
    name := r.abs(r.name)
    f, err := os.OpenFile(name, OpenFlag, r.mode)
    if err != nil { return err }
    _ = r.f.Close()
    r.f = f
    return nil
}
```

`OpenFlag` contains `O_CREATE`, so a successful open creates the name
if absent.  Success of the `os.OpenFile` call is the environment
parameter `openOk`; `nh` is the fresh handle id. -/
def reopenGo (st : RotState) (fs : Fs) (openOk : Bool) (nh : Nat) :
    RotState × Fs × List FsOp × Option RErr :=
  if openOk then
    (⟨nh, st.name, st.names⟩, if st.name ∈ fs then fs else st.name :: fs,
     [.openf st.name], none)
  else (st, fs, [.openf st.name], some .reopen)

/--
`rotator.Rotate`:

```go
func (r *rotator) Rotate() (File, error) {
    err := r.rename()
    if err == nil {
        err = r.reopen()
    }
    return r.f, err
}
```
-/
def rotateGo (st : RotState) (fs : Fs) (openOk : Bool) (nh : Nat) :
    Option RotateRes :=
  match renameGo st.names fs with
  | none => none
  | some rr =>
      match rr.err with
      | some fn => some ⟨⟨st.f, st.name, rr.names⟩, rr.fs, rr.trace, some (.rename fn)⟩
      | none =>
          match reopenGo ⟨st.f, st.name, rr.names⟩ rr.fs openOk nh with
          | (st', fs', tr', er') => some ⟨st', fs', rr.trace ++ tr', er'⟩

/-- The `Rotator` held by a wrapped file: either the `noop` rotator
(`func (n *noop) Rotate() (File, error) { return n.f, nil }`) or a real
`rotator`. -/
inductive Rot where
  | noop (f : Nat)
  | rot (st : RotState)
deriving DecidableEq

/-- The `file` struct of `rotate.go` (the rotating writer): the current
handle `w`, the rotator `r`, the byte threshold `bytes` (`Config.Bytes`,
an `int64`) and the running counter `n` seeded from the file size at
`Wrap` time.  The mutex is irrelevant to the sequential semantics. -/
structure WFile where
  w : Nat
  rot : Rot
  bytes : Int
  n : Int
deriving DecidableEq

/--
`file.rotate`:

```go
func (f *file) rotate() (err error) {
    if f.bytes <= 0 || f.n < f.bytes { return nil }
    f.w, err = f.r.Rotate()
    return
}
```

The first component of the result records whether `r.Rotate()` was
invoked (the rotation predicate fired); the second is the updated
writer, filesystem, trace and rotation error, or `none` when the
rotator panicked. -/
def fileRotate (f : WFile) (fs : Fs) (openOk : Bool) (nh : Nat) :
    Bool × Option (WFile × Fs × List FsOp × Option RErr) :=
  if f.bytes ≤ 0 ∨ f.n < f.bytes then (false, some (f, fs, [], none))
  else
    match f.rot with
    | .noop g => (true, some (⟨g, .noop g, f.bytes, f.n⟩, fs, [], none))
    | .rot st =>
        (true,
         match rotateGo st fs openOk nh with
         | none => none
         | some res =>
             some (⟨res.st.f, .rot res.st, f.bytes, f.n⟩, res.fs, res.trace, res.err))

/--
`file.Write`:

```go
func (f *file) Write(b []byte) (n int, err error) {
    f.mu.Lock(); defer f.mu.Unlock()
    rerr := f.rotate()
    n, err = f.w.Write(b)
    if err == nil { err = rerr }
    f.n += int64(n)
    return
}
```

The underlying `w.Write` is assumed to succeed writing all `b` bytes
(its failure is environment noise orthogonal to every claim), so the
returned error is the rotation error and the counter grows by `b`. -/
def writeGo (f : WFile) (fs : Fs) (b : Nat) (openOk : Bool) (nh : Nat) :
    Bool × Option (WFile × Fs × List FsOp × Option RErr × Nat) :=
  match fileRotate f fs openOk nh with
  | (trig, none) => (trig, none)
  | (trig, some (f1, fs1, tr, rerr)) =>
      (trig, some (⟨f1.w, f1.rot, f1.bytes, f1.n + (b : Int)⟩, fs1, tr, rerr, b))

/-- A sequence of `Write` calls; `next` supplies fresh handle ids for
reopens.  Returns the final writer and filesystem, the concatenated
trace, and the per-write errors (`none` when the underlying Go code
panicked during some write). -/
def writeMany (f : WFile) (fs : Fs) (next : Nat) (openOk : Bool) :
    List Nat → Option (WFile × Fs × List FsOp × List (Option RErr))
  | [] => some (f, fs, [], [])
  | b :: bs =>
      match writeGo f fs b openOk next with
      | (_, none) => none
      | (_, some (f1, fs1, tr, er, _)) =>
          match writeMany f1 fs1 (next + 1) openOk bs with
          | none => none
          | some (f2, fs2, tr2, ers) => some (f2, fs2, tr ++ tr2, er :: ers)

/-- Go's `copy(dst, src)`: overwrite the first `min |dst| |src|`
entries of `dst` with those of `src` (used by `New` to fill
`make([]string, count)` from the scan result). -/
def copyInto : List Name → List Name → List Name
  | dst, [] => dst
  | [], _ => []
  | _ :: ds, s :: ss => s :: copyInto ds ss

/-- The outcome of `New`: a `Noop` rotator (with the flag recording
whether `ErrNotSupported` was returned alongside), a real `rotator`, or
a panic. -/
inductive NewRes where
  | noop (f : Nat) (notSupported : Bool)
  | rot (st : RotState)
  | panicked
deriving DecidableEq

/--
`New` from `rotate.go`:

```go
func New(f File, count int64) (r Rotator, err error) {
    var root string
    ... // Dirname(f.Fd()); if err == ErrNotSupported { return Noop(f), err }
    var names []string
    {
        base := filepath.Base(f.Name())
        // save syscall while a single file
        if count < 1 { names = []string{base}; goto AFTER_NAMES }
        v, err := List(root, base)
        ...
        if len(v) < 1 { panic("must contain current file") }
        names = make([]string, count)
        copy(names, v)
    }
AFTER_NAMES:
    r = &rotator{f: f, mode: mode, root: root, name: names[0], names: names}
    return
}
```

Directory resolution success is the parameter `supported`; the `Stat`
and `List` error paths (environment failures) are not modelled.  Note
there is no `count <= 1` short-circuit to `Noop` in this revision: for
`count < 1` the chain is the single base name, for `count = 1` it is
`make([]string, 1)` filled from the scan. -/
def newGo (supported : Bool) (f : Nat) (count : Int) (d : Dir) (base : Name) :
    NewRes :=
  if !supported then .noop f true
  else if count < 1 then .rot ⟨f, base, [base]⟩
  else
    let v := ListGo d base
    if v.isEmpty then .panicked
    else
      let names := copyInto (List.replicate count.toNat []) v
      .rot ⟨f, names.getD 0 [], names⟩

/--
`Wrap` from `rotate.go`:

```go
func Wrap(f File, c Config) (File, error) {
    r, err := New(f, c.Count)
    if err != nil && err != ErrNotSupported { return nil, err }
    ... // size from f.Stat()
    ff := file{w: f, r: r, mu: mu, bytes: c.Bytes, n: size}
    return &ff, err
}
```

Returns the wrapped writer together with the flag "`ErrNotSupported`
was returned"; `none` when `New` panicked.  `size` is the wrapped
file's current size from `Stat`. -/
def wrapGo (supported : Bool) (f : Nat) (cBytes cCount : Int) (d : Dir)
    (base : Name) (size : Int) : Option (WFile × Bool) :=
  match newGo supported f cCount d base with
  | .panicked => none
  | .noop g ns => some (⟨f, .noop g, cBytes, size⟩, ns)
  | .rot st => some (⟨f, .rot st, cBytes, size⟩, false)

/-- Whether `c` is any decimal digit `0`..`9`. -/
def isDigit09 (c : Char) : Bool := 48 ≤ c.toNat && c.toNat ≤ 57

/-- Modelled from the spec's words (for comparison with the code's
pattern): a name matches the claimed scanner pattern iff it is the base
name itself or the base name followed by `"."` and one or more digits —
*any* digits, so that e.g. `a.10` matches (§4.2 / C6). -/
def matchAnySpec (base s : Name) : Prop :=
  s = base ∨ ∃ d, d ≠ [] ∧ (∀ c ∈ d, isDigit09 c = true) ∧ s = base ++ '.' :: d

/-- The pattern the code actually implements, stated declaratively: the
base name itself, or the base followed by `"."` and one or more digits
`1`-`9`. -/
def match19Spec (base s : Name) : Prop :=
  s = base ∨ ∃ d, d ≠ [] ∧ (∀ c ∈ d, isDigit19 c = true) ∧ s = base ++ '.' :: d

section Helpers

/-- `takeWhile`/`dropWhile` on a list that starts with a block of
elements satisfying `p` followed by an element refuting it. -/
lemma takeWhile_append_all {p : Char → Bool} :
    ∀ (xs : List Char) (y : Char) (ys : List Char),
      (∀ x ∈ xs, p x = true) → p y = false →
      (xs ++ y :: ys).takeWhile p = xs ∧ (xs ++ y :: ys).dropWhile p = y :: ys := by
  intro xs
  induction xs with
  | nil =>
      intro y ys _ hy
      simp [List.takeWhile_cons, List.dropWhile_cons, hy]
  | cons x xs ih =>
      intro y ys hall hy
      have hx : p x = true := hall x (by simp)
      have h := ih y ys (fun z hz => hall z (by simp [hz])) hy
      simp [List.takeWhile_cons, List.dropWhile_cons, hx, h.1, h.2]

lemma leDigitsAux_congr :
    ∀ n f f', n ≤ f → n ≤ f' → leDigitsAux f n = leDigitsAux f' n := by
  intro n
  induction n using Nat.strong_induction_on with
  | _ n ih =>
    intro f f' hf hf'
    match n, f, f', hf, hf' with
    | 0, f, f', _, _ => cases f <;> cases f' <;> rfl
    | m + 1, fz + 1, fz' + 1, hf, hf' =>
        simp only [leDigitsAux]
        have hlt : (m + 1) / 10 < m + 1 := Nat.div_lt_self (Nat.succ_pos m) (by omega)
        rw [ih ((m + 1) / 10) hlt fz fz' (by omega) (by omega)]

lemma leDigits_pos (n : Nat) (h : 0 < n) :
    leDigits n = (n % 10) :: leDigits (n / 10) := by
  match n, h with
  | m + 1, _ =>
      show leDigitsAux (m + 1) (m + 1) = _
      simp only [leDigitsAux]
      have hlt : (m + 1) / 10 < m + 1 := Nat.div_lt_self (Nat.succ_pos m) (by omega)
      rw [leDigitsAux_congr ((m + 1) / 10) m ((m + 1) / 10) (by omega) (le_refl _)]
      rfl

lemma leDigits_lt10 : ∀ n, ∀ d ∈ leDigits n, d < 10 := by
  intro n
  induction n using Nat.strong_induction_on with
  | _ n ih =>
    match n with
    | 0 => intro d hd; simp [leDigits, leDigitsAux] at hd
    | m + 1 =>
        rw [leDigits_pos (m + 1) (Nat.succ_pos m)]
        intro d hd
        rcases List.mem_cons.mp hd with h | h
        · omega
        · exact ih ((m + 1) / 10) (Nat.div_lt_self (Nat.succ_pos m) (by omega)) d h

lemma leDigits_ne_nil (n : Nat) (h : 0 < n) : leDigits n ≠ [] := by
  rw [leDigits_pos n h]; simp

lemma parseBE_digitsBE : ∀ n, parseBE (digitsBE n) = n := by
  intro n
  induction n using Nat.strong_induction_on with
  | _ n ih =>
    match n with
    | 0 => simp [digitsBE, parseBE, leDigits, leDigitsAux]
    | m + 1 =>
        have ihd := ih ((m + 1) / 10) (Nat.div_lt_self (Nat.succ_pos m) (by omega))
        unfold digitsBE at ihd ⊢
        rw [leDigits_pos (m + 1) (Nat.succ_pos m), List.reverse_cons]
        unfold parseBE at ihd ⊢
        rw [List.foldl_append, ihd]
        simp only [List.foldl]
        omega

lemma charVal_digitChar (d : Nat) (h : d < 10) : charVal (digitChar d) = d := by
  interval_cases d <;> decide

lemma isDigit19_digitChar (d : Nat) (h1 : 1 ≤ d) (h9 : d ≤ 9) :
    isDigit19 (digitChar d) = true := by
  interval_cases d <;> decide

lemma map_charVal_digitChar :
    ∀ l : List Nat, (∀ d ∈ l, d < 10) → (l.map digitChar).map charVal = l := by
  intro l
  induction l with
  | nil => intro _; rfl
  | cons d l ih =>
      intro h
      simp only [List.map_cons, List.cons.injEq]
      exact ⟨charVal_digitChar d (h d (by simp)),
             ih (fun x hx => h x (by simp [hx]))⟩

/-- For a positive `n` all of whose decimal digits are nonzero, the
rendered decimal consists of `[1-9]` characters only and parses back to
`n`. -/
lemma repDec_all19 (n : Nat) (hpos : 0 < n) (hdig : ∀ d ∈ leDigits n, d ≠ 0) :
    (∀ c ∈ repDec n, isDigit19 c = true) ∧ parseName (repDec n) = n ∧ repDec n ≠ [] := by
  have hne : n ≠ 0 := by omega
  have hlt := leDigits_lt10 n
  refine ⟨?_, ?_, ?_⟩
  · intro c hc
    simp only [repDec, if_neg hne, digitsBE] at hc
    rcases List.mem_map.mp hc with ⟨d, hd, rfl⟩
    have hd' : d ∈ leDigits n := List.mem_reverse.mp hd
    exact isDigit19_digitChar d (by have := hdig d hd'; omega) (by have := hlt d hd'; omega)
  · simp only [repDec, if_neg hne, parseName, digitsBE]
    rw [map_charVal_digitChar _ (fun d hd => hlt d (List.mem_reverse.mp hd))]
    exact parseBE_digitsBE n
  · simp only [repDec, if_neg hne, digitsBE]
    simp [leDigits_ne_nil n hpos]

/-- Core computation behind `splitGo` on a name of the shape
`b ++ '.' :: d` with `d` a non-empty `[1-9]` run: the regular
expression's group is exactly `'.' :: d`. -/
lemma splitGo_suffix (b d : Name) (hd : d ≠ []) (h19 : ∀ c ∈ d, isDigit19 c = true) :
    splitGo (b ++ '.' :: d) =
      (if parseName d ≤ int64Max then some (b, parseName d) else none) := by
  have hrev : (b ++ '.' :: d).reverse = d.reverse ++ '.' :: b.reverse := by
    simp
  have hall : ∀ x ∈ d.reverse, isDigit19 x = true :=
    fun x hx => h19 x (List.mem_reverse.mp hx)
  have hdot : isDigit19 '.' = false := by decide
  have h := takeWhile_append_all d.reverse '.' b.reverse hall hdot
  have hne : d.reverse ≠ [] := by simpa using hd
  simp only [splitGo, hrev, h.1, h.2, List.isEmpty_iff, if_neg hne,
             List.reverse_reverse]

end Helpers

/-- C4 (counterexample): the round-trip law fails as claimed.  For the
base `"a"` (which carries no digit suffix: `Split` on it finds none) and
the non-negative index `0`, `render` yields `"a.0"`, but `Split("a.0")`
does not recognize the suffix — the pattern's digit class is `[1-9]`,
excluding `0` — and returns base `"a.0"` with counter `0`, not
`("a", 0)`. -/
theorem c4_roundtrip_counterexample :
    splitGo (render ['a'] 0) = some (['a', '.', '0'], 0) ∧
    splitGo (render ['a'] 0) ≠ some (['a'], 0) ∧
    splitGo ['a'] = some (['a'], 0) ∧
    splitGo (render ['a'] 10) = some (['a', '.', '1', '0'], 0) := by
  refine ⟨by decide, by decide, by decide, by decide⟩

/-- C4 (amended): for every base and every *positive* index that fits
in an `int64` and whose decimal digits are all nonzero (the suffix
pattern `(\.[1-9]+)?$` recognizes exactly the digit runs without `0`),
`split(render(base, index)) = (base, index)`.  The claim's restriction
on the base (no digit suffix of its own) is kept as a hypothesis,
though the anchored pattern makes the law hold regardless. -/
theorem c4_roundtrip_amended (b : Name) (n : Nat)
    (_hb : splitGo b = some (b, 0)) (hpos : 0 < n)
    (hdig : ∀ d ∈ leDigits n, d ≠ 0) (hmax : n ≤ int64Max) :
    splitGo (render b n) = some (b, n) := by
  obtain ⟨h19, hparse, hne⟩ := repDec_all19 n hpos hdig
  rw [render, splitGo_suffix b (repDec n) hne h19, hparse, if_pos hmax]

/-- C4 (witness): the amended round-trip at base `"a"`, index `12`. -/
theorem c4_roundtrip_amended_witness :
    splitGo ['a'] = some (['a'], 0) ∧ 0 < 12 ∧
    (∀ d ∈ leDigits 12, d ≠ 0) ∧ 12 ≤ int64Max ∧
    splitGo (render ['a'] 12) = some (['a'], 12) :=
  ⟨by decide, by decide, by decide, by decide,
   c4_roundtrip_amended ['a'] 12 (by decide) (by decide) (by decide) (by decide)⟩

/-- C10: `Split` panics exactly on the names whose trailing dot-suffix
is a non-empty run of digits `1`-`9` denoting a value above the int64
range (then `strconv.ParseInt` reports a range error and `Split` calls
`panic("invalid suffix regexp")`); every other name returns normally.
In particular `"a."` followed by twenty `'9'` characters panics. -/
theorem c10_split_panic_iff_overflow :
    (∀ name : Name,
      splitGo name = none ↔
        ∃ b d, name = b ++ '.' :: d ∧ d ≠ [] ∧
          (∀ c ∈ d, isDigit19 c = true) ∧ int64Max < parseName d) ∧
    splitGo (['a', '.'] ++ List.replicate 20 '9') = none := by
  constructor
  · intro name
    constructor
    · intro h
      simp only [splitGo] at h
      split at h
      · exact absurd h (by simp)
      · rename_i hne
        split at h
        · rename_i rb hdrop
          refine ⟨rb.reverse, (name.reverse.takeWhile isDigit19).reverse, ?_, ?_, ?_, ?_⟩
          · conv_lhs => rw [← name.reverse_reverse,
              ← List.takeWhile_append_dropWhile isDigit19 name.reverse]
            rw [hdrop]
            simp
          · simp only [ne_eq, List.reverse_eq_nil_iff]
            simpa [List.isEmpty_iff] using hne
          · intro c hc
            exact List.mem_takeWhile_imp (List.mem_reverse.mp hc)
          · split at h
            · exact absurd h (by simp)
            · omega
        · exact absurd h (by simp)
    · rintro ⟨b, d, rfl, hd, h19, hover⟩
      rw [splitGo_suffix b d hd h19, if_neg (by omega)]
  · decide

/-- `dropPre` computes literal prefix removal. -/
lemma dropPre_eq_some : ∀ (b s r : Name), dropPre b s = some r ↔ s = b ++ r := by
  intro b
  induction b with
  | nil => intro s r; simp [dropPre, eq_comm]
  | cons x bs ih =>
      intro s r
      cases s with
      | nil => simp [dropPre]
      | cons c cs =>
          by_cases hx : x = c
          · subst hx
            simp [dropPre, ih cs r]
          · simp [dropPre, hx, Ne.symm hx]

/-- The compiled pattern `^base(\.[1-9]+)?$` holds exactly as described
by `match19Spec`. -/
lemma matchGo_iff (base s : Name) : matchGo base s = true ↔ match19Spec base s := by
  unfold matchGo match19Spec
  by_cases hb : s = base
  · simp [hb]
  · simp only [if_neg hb]
    constructor
    · intro h
      split at h
      · rename_i d heq
        simp only [Bool.and_eq_true, List.all_eq_true] at h
        refine Or.inr ⟨d, ?_, h.2, (dropPre_eq_some base s ('.' :: d)).mp heq⟩
        intro hnil
        subst hnil
        simp at h
      · simp at h
    · rintro (h | ⟨d, hd, h19, rfl⟩)
      · exact absurd h hb
      · rw [(dropPre_eq_some base _ ('.' :: d)).mpr rfl]
        simpa [List.isEmpty_iff, hd] using fun c hc => h19 c hc

/-- C6 (counterexample): the scanner does not return `"a.10"` for base
`"a"`, although the claim's pattern ("one or more digits, any digits,
e.g. `a.10` matches") requires it: the compiled pattern's digit class
is `[1-9]`, so any suffix containing `'0'` is excluded. -/
theorem c6_list_counterexample :
    matchAnySpec ['a'] ['a', '.', '1', '0'] ∧
    ListGo ⟨['r'], [⟨['a', '.', '1', '0'], false⟩]⟩ ['a'] = [] := by
  constructor
  · exact Or.inr ⟨['1', '0'], by decide, by decide, rfl⟩
  · decide

/-- C6 (amended): `List` returns exactly the names matching
`^base(\.[1-9]+)?$` — the base itself or the base followed by `"."` and
one or more digits `1`-`9` (a suffix containing `'0'`, such as `.10`,
does *not* match) — among the root directory's own base name and the
names of the non-directory entries, sorted lexicographically as
strings. -/
theorem c6_list_amended (d : Dir) (base : Name) :
    List.Sorted (· ≤ ·) (ListGo d base) ∧
    (ListGo d base).Perm
      ((d.rootBase :: (d.entries.filter fun e => !e.isDir).map DirEntry.name).filter
        (matchGo base)) ∧
    (∀ s : Name, matchGo base s = true ↔ match19Spec base s) := by
  refine ⟨List.sorted_insertionSort _ _, List.perm_insertionSort _ _, matchGo_iff base⟩

/-- C9: with rotation supported and `Config.Count ≥ 1`, an empty
directory scan makes `New` reach `panic("must contain current file")`
(and `Wrap`, which calls `New` first, panics as well) instead of
returning an error. -/
theorem c9_new_panics_on_empty_scan (f : Nat) (count : Int) (d : Dir) (base : Name)
    (hc : 1 ≤ count) (hscan : ListGo d base = []) :
    newGo true f count d base = .panicked ∧
    ∀ cBytes size, wrapGo true f cBytes count d base size = none := by
  have hc' : ¬count < 1 := by omega
  have h1 : newGo true f count d base = .panicked := by
    simp [newGo, hscan, hc']
  exact ⟨h1, fun cBytes size => by simp [wrapGo, h1]⟩

/-- C9 (witness): base `"a"`, count `2`, a directory (root base `"r"`)
holding no matching file. -/
theorem c9_new_panics_witness :
    (1 : Int) ≤ 2 ∧ ListGo ⟨['r'], []⟩ ['a'] = [] ∧
    (newGo true 0 2 ⟨['r'], []⟩ ['a'] = .panicked ∧
     ∀ cBytes size, wrapGo true 0 cBytes 2 ⟨['r'], []⟩ ['a'] size = none) :=
  ⟨by decide, by decide,
   c9_new_panics_on_empty_scan 0 2 ⟨['r'], []⟩ ['a'] (by decide) (by decide)⟩

/-- C7: with threshold `T > 0` and a writer over an empty file
(counter `0`), a single write of exactly `T` bytes does not invoke the
rotator (the predicate `bytes > 0 && n >= bytes` is checked *before*
the write, on the bytes accumulated so far, and `0 < T`), and the next
write of any positive size does invoke it (`T ≥ T`). -/
theorem c7_threshold_edge (T k : Nat) (f : WFile) (fs : Fs) (openOk : Bool) (nh nh' : Nat)
    (hT : 0 < T) (_hk : 0 < k) (hbytes : f.bytes = (T : Int)) (hn : f.n = 0) :
    writeGo f fs T openOk nh =
      (false, some (⟨f.w, f.rot, f.bytes, (T : Int)⟩, fs, [], none, T)) ∧
    (writeGo ⟨f.w, f.rot, f.bytes, (T : Int)⟩ fs k openOk nh').1 = true := by
  obtain ⟨w, rot, bytes, n⟩ := f
  simp only at hbytes hn
  subst hbytes hn
  have hTne : T ≠ 0 := by omega
  constructor
  · simp [writeGo, fileRotate, hT, hTne]
  · cases rot with
    | noop g => simp [writeGo, fileRotate, hT, hTne]
    | rot st =>
        cases hr : rotateGo st fs openOk nh' with
        | none => simp [writeGo, fileRotate, hT, hTne, hr]
        | some res => simp [writeGo, fileRotate, hT, hTne, hr]

/-- C7 (witness): threshold `3`, noop-rotating writer over an empty
file; a 3-byte write does not trigger, the next 1-byte write does. -/
theorem c7_threshold_edge_witness :
    0 < 3 ∧ 0 < 1 ∧
    (writeGo ⟨0, .noop 0, 3, 0⟩ [] 3 true 1 =
       (false, some (⟨0, .noop 0, 3, (3 : Int)⟩, [], [], none, 3)) ∧
     (writeGo ⟨0, .noop 0, 3, (3 : Int)⟩ [] 1 true 2).1 = true) :=
  ⟨by decide, by decide,
   c7_threshold_edge 3 1 ⟨0, .noop 0, 3, 0⟩ [] true 1 2 (by decide) (by decide) rfl rfl⟩

/-- C1 (code bug, evaluation): chain `[a, a.1, a.2, a.3]` (capacity 4)
with `a.1` removed from disk (files `a, a.2, a.3`), the scenario of the
repo's test `TestFile_doesNotRenameAllFilesOnError` and of the spec's
scenario B.  The evict removes `a.3`; `a.2 → a.3` succeeds; `a.1 → a.2`
fails at position `i = 1`.  The claim requires every position `> 1` to
record its new name and no recorded name to dangle, but the fix-up
`copy(r.names[i+1:len(names)-2], names[i+1:])` copies nothing: position
2 still records `a.2`, which no longer exists on disk.  Moreover, when
the failing position is `len-2` (here: disk `a, a.1, a.3`, so `a.2 → a.3`
fails at `i = 2`), the slice expression `r.names[3:2]` is ill-formed and
Go panics (third conjunct). -/
theorem c1_rename_partial_failure_eval :
    renameGo [['a'], ['a', '.', '1'], ['a', '.', '2'], ['a', '.', '3']]
             [['a'], ['a', '.', '2'], ['a', '.', '3']] =
      some ⟨[['a'], ['a', '.', '1'], ['a', '.', '2'], []],
            [['a', '.', '3'], ['a']],
            [.remove ['a', '.', '3'], .rename ['a', '.', '2'] ['a', '.', '3'],
             .rename ['a', '.', '1'] ['a', '.', '2']],
            some ['a', '.', '1']⟩ ∧
    (['a', '.', '2'] ∉ ([['a', '.', '3'], ['a']] : Fs)) ∧
    renameGo [['a'], ['a', '.', '1'], ['a', '.', '2'], ['a', '.', '3']]
             [['a'], ['a', '.', '1'], ['a', '.', '3']] = none :=
  ⟨by decide, by decide, by decide⟩

/-- C2 (code bug, evaluation): `Config{Bytes: 2, Count: 2}` over an
empty file `a`, writes of 2, 1 and 1 bytes (the scenario of the repo's
test `TestFile_resetsWrittenBytesOnRotation`).  The counter is
incremented after each write but never reset: after the rotation
triggered by the second write the counter is `3`, not `1`, so the third
1-byte write — smaller than the threshold and landing on a fresh file —
triggers a second rotation (second `openf` in the trace, final counter
`4`). -/
theorem c2_counter_never_reset_eval :
    writeMany ⟨0, .rot ⟨0, ['a'], [['a'], []]⟩, 2, 0⟩ [['a']] 1 true [2, 1] =
      some (⟨2, .rot ⟨2, ['a'], [['a'], ['a', '.', '1']]⟩, 2, 3⟩,
            [['a'], ['a', '.', '1']],
            [.rename ['a'] ['a', '.', '1'], .openf ['a']],
            [none, none]) ∧
    (writeGo ⟨2, .rot ⟨2, ['a'], [['a'], ['a', '.', '1']]⟩, 2, 3⟩
       [['a'], ['a', '.', '1']] 1 true 3).1 = true ∧
    writeMany ⟨0, .rot ⟨0, ['a'], [['a'], []]⟩, 2, 0⟩ [['a']] 1 true [2, 1, 1] =
      some (⟨3, .rot ⟨3, ['a'], [['a'], ['a', '.', '1']]⟩, 2, 4⟩,
            [['a'], ['a', '.', '1']],
            [.rename ['a'] ['a', '.', '1'], .openf ['a'], .remove ['a', '.', '1'],
             .rename ['a'] ['a', '.', '1'], .openf ['a']],
            [none, none, none]) :=
  ⟨by decide, by decide, by decide⟩

/-- C3 (counterexample): with rotation supported and `Count = 0`, `New`
does *not* select Noop mode — it builds a real rotator whose chain is
just the base name — and the first `Rotate()` removes the active file
`a` from disk (and returns a different handle), refuting "zero
filesystem mutation" and "a count of 0 never deletes the active
file". -/
theorem c3_count_le_one_counterexample :
    newGo true 0 0 ⟨['r'], []⟩ ['a'] = .rot ⟨0, ['a'], [['a']]⟩ ∧
    (∀ g ns, newGo true 0 0 ⟨['r'], []⟩ ['a'] ≠ .noop g ns) ∧
    rotateGo ⟨0, ['a'], [['a']]⟩ [['a']] true 1 =
      some ⟨⟨1, ['a'], [[]]⟩, [['a']], [.remove ['a'], .openf ['a']], none⟩ ∧
    FsOp.remove ['a'] ∈ [FsOp.remove ['a'], FsOp.openf ['a']] :=
  ⟨by decide, fun g ns h => by simp [newGo] at h, by decide, by decide⟩

/-- C5 (counterexample): on the partial-failure input of C1 the rename
pass stops with an error after a successful rename (`a.2 → a.3` is in
the trace), and `Rotate()` performs *no* reopen — the trace contains no
open operation — contradicting "attempts to reopen … whether the rename
pass completed fully or only partially". -/
theorem c5_reopen_skipped_counterexample :
    rotateGo ⟨0, ['a'], [['a'], ['a', '.', '1'], ['a', '.', '2'], ['a', '.', '3']]⟩
             [['a'], ['a', '.', '2'], ['a', '.', '3']] true 1 =
      some ⟨⟨0, ['a'], [['a'], ['a', '.', '1'], ['a', '.', '2'], []]⟩,
            [['a', '.', '3'], ['a']],
            [.remove ['a', '.', '3'], .rename ['a', '.', '2'] ['a', '.', '3'],
             .rename ['a', '.', '1'] ['a', '.', '2']],
            some (.rename ['a', '.', '1'])⟩ ∧
    (∀ nm : Name, FsOp.openf nm ∉
       ([.remove ['a', '.', '3'], .rename ['a', '.', '2'] ['a', '.', '3'],
         .rename ['a', '.', '1'] ['a', '.', '2']] : List FsOp)) ∧
    FsOp.rename ['a', '.', '2'] ['a', '.', '3'] ∈
      ([.remove ['a', '.', '3'], .rename ['a', '.', '2'] ['a', '.', '3'],
        .rename ['a', '.', '1'] ['a', '.', '2']] : List FsOp) :=
  ⟨by decide, fun nm => by simp, by decide⟩

lemma renameLoop_no_open (orig shifted : List Name) :
    ∀ (k : Nat) (fs : Fs) (tr : List FsOp),
      (∀ nm, FsOp.openf nm ∉ tr) →
      ∀ nm, FsOp.openf nm ∉ (renameLoop orig shifted k fs tr).2.1 := by
  intro k
  induction k with
  | zero => intro fs tr h nm; exact h nm
  | succ k ih =>
      intro fs tr h nm
      simp only [renameLoop]
      split
      · exact ih fs tr h nm
      · split
        · rename_i fs' heq
          exact ih fs' _ (fun nm' => by simp [List.mem_append, h nm']) nm
        · simp [List.mem_append, h nm]

lemma renameAfterEvict_no_open (names1 : List Name) (fs1 : Fs) (tr1 : List FsOp)
    (rr : RenameRes) (h : renameAfterEvict names1 fs1 tr1 = some rr)
    (htr : ∀ nm, FsOp.openf nm ∉ tr1) : ∀ nm, FsOp.openf nm ∉ rr.trace := by
  simp only [renameAfterEvict] at h
  split at h
  · exact absurd h (by simp)
  · rename_i shifted hshift
    split at h
    · rename_i heq
      obtain rfl : _ = rr := Option.some.inj h
      intro nm
      have := renameLoop_no_open names1 shifted names1.length fs1 tr1 htr nm
      rw [heq] at this
      exact this
    · rename_i heq
      split at h
      · exact absurd h (by simp)
      · obtain rfl : _ = rr := Option.some.inj h
        intro nm
        have := renameLoop_no_open names1 shifted names1.length fs1 tr1 htr nm
        rw [heq] at this
        exact this

lemma renameGo_no_open (names0 : List Name) (fs0 : Fs) (rr : RenameRes)
    (h : renameGo names0 fs0 = some rr) : ∀ nm, FsOp.openf nm ∉ rr.trace := by
  simp only [renameGo] at h
  split at h
  · exact renameAfterEvict_no_open _ _ _ rr h (by simp)
  · split at h
    · obtain rfl : _ = rr := Option.some.inj h
      simp
    · exact renameAfterEvict_no_open _ _ _ rr h (by simp)

/-- C5 (amended): `Rotate()` attempts the reopen exactly when the
rename pass completed *fully*.  When the rename pass returned an error
(partial completion), the call returns the old handle and the wrapped
rename error, without any open ever appearing in the trace; when the
rename pass succeeded, an open of the base name is attempted, and if it
fails the old handle remains the active one and the reopen error is
surfaced. -/
theorem c5_reopen_amended (st : RotState) (fs : Fs) (openOk : Bool) (nh : Nat)
    (rr : RenameRes) (h : renameGo st.names fs = some rr) :
    (∀ e, rr.err = some e →
       rotateGo st fs openOk nh =
         some ⟨⟨st.f, st.name, rr.names⟩, rr.fs, rr.trace, some (.rename e)⟩ ∧
       ∀ nm, FsOp.openf nm ∉ rr.trace) ∧
    (rr.err = none →
       (∃ res, rotateGo st fs openOk nh = some res ∧ FsOp.openf st.name ∈ res.trace) ∧
       (openOk = false →
          rotateGo st fs openOk nh =
            some ⟨⟨st.f, st.name, rr.names⟩, rr.fs, rr.trace ++ [.openf st.name],
                  some .reopen⟩)) := by
  constructor
  · intro e he
    exact ⟨by simp [rotateGo, h, he], renameGo_no_open st.names fs rr h⟩
  · intro he
    constructor
    · cases openOk with
      | true =>
          exact ⟨⟨⟨nh, st.name, rr.names⟩,
                  if st.name ∈ rr.fs then rr.fs else st.name :: rr.fs,
                  rr.trace ++ [.openf st.name], none⟩,
                 by simp [rotateGo, h, he, reopenGo], by simp⟩
      | false =>
          exact ⟨⟨⟨st.f, st.name, rr.names⟩, rr.fs,
                  rr.trace ++ [.openf st.name], some .reopen⟩,
                 by simp [rotateGo, h, he, reopenGo], by simp⟩
    · intro hok
      subst hok
      simp [rotateGo, h, he, reopenGo]

/-- C5 (witness): chain `[a, ""]` over disk `{a}`: the rename pass
succeeds, and with the reopen failing the old handle `0` stays active
with the reopen error surfaced. -/
theorem c5_reopen_amended_witness :
    renameGo [['a'], []] [['a']] =
      some ⟨[['a'], ['a', '.', '1']], [['a', '.', '1']],
            [.rename ['a'] ['a', '.', '1']], none⟩ ∧
    ((∀ e, (none : Option Name) = some e →
       rotateGo ⟨0, ['a'], [['a'], []]⟩ [['a']] false 1 =
         some ⟨⟨0, ['a'], [['a'], ['a', '.', '1']]⟩, [['a', '.', '1']],
               [.rename ['a'] ['a', '.', '1']], some (.rename e)⟩ ∧
       ∀ nm, FsOp.openf nm ∉ [FsOp.rename ['a'] ['a', '.', '1']]) ∧
     ((none : Option Name) = none →
       (∃ res, rotateGo ⟨0, ['a'], [['a'], []]⟩ [['a']] false 1 = some res ∧
          FsOp.openf ['a'] ∈ res.trace) ∧
       (false = false →
          rotateGo ⟨0, ['a'], [['a'], []]⟩ [['a']] false 1 =
            some ⟨⟨0, ['a'], [['a'], ['a', '.', '1']]⟩, [['a', '.', '1']],
                  [FsOp.rename ['a'] ['a', '.', '1']] ++ [.openf ['a']],
                  some .reopen⟩))) :=
  ⟨by decide,
   c5_reopen_amended ⟨0, ['a'], [['a'], []]⟩ [['a']] false 1
     ⟨[['a'], ['a', '.', '1']], [['a', '.', '1']],
      [.rename ['a'] ['a', '.', '1']], none⟩ (by decide)⟩

/-- C3 (amended): when `Config.Count ≤ 1` (with rotation supported), the
engine does *not* select Noop mode.  For `Count < 1` the chain is the
single base name without any scan; for `Count = 1` it is the first
scanned name.  A `Rotate()` on such a single-slot chain holding `nm`
first *removes* `nm` from disk — for `Count < 1` that is the active
file — then reopens the base (`Config.Count`'s doc: "If Count <= 1, a
file will be removed & created on Bytes size"); on reopen success the
handle changes to the fresh one. -/
theorem c3_count_le_one_amended (f : Nat) (count : Int) (d : Dir) (base : Name) :
    (count < 1 → newGo true f count d base = .rot ⟨f, base, [base]⟩) ∧
    (count = 1 → ∀ v0 vrest, ListGo d base = v0 :: vrest →
       newGo true f count d base = .rot ⟨f, v0, [v0]⟩) ∧
    (∀ (st : RotState) (fs : Fs) (openOk : Bool) (nh : Nat) (nm : Name),
       st.names = [nm] → nm ≠ [] → nm ∈ fs →
       ∃ res, rotateGo st fs openOk nh = some res ∧
         FsOp.remove nm ∈ res.trace ∧ res.st.names = [[]] ∧
         (openOk = true → res.st.f = nh ∧ res.err = none)) := by
  refine ⟨?_, ?_, ?_⟩
  · intro hlt
    simp [newGo, hlt]
  · intro h1 v0 vrest hv
    subst h1
    simp [newGo, hv, copyInto]
    cases vrest <;> rfl
  · intro st fs openOk nh nm hnames hnm hmem
    obtain ⟨f0, name0, names0⟩ := st
    simp only at hnames
    subst hnames
    have hne : nm.isEmpty = false := by
      simp [List.isEmpty_iff, hnm]
    have hren : renameGo [nm] fs =
        some ⟨[[]], fs.erase nm, [.remove nm], none⟩ := by
      simp [renameGo, fsRemove, hmem, hne, renameAfterEvict, shiftGo, renameLoop]
    cases openOk with
    | true =>
        exact ⟨⟨⟨nh, name0, [[]]⟩,
                if name0 ∈ fs.erase nm then fs.erase nm else name0 :: fs.erase nm,
                [.remove nm] ++ [.openf name0], none⟩,
               by simp [rotateGo, hren, reopenGo], by simp, rfl,
               fun _ => ⟨rfl, rfl⟩⟩
    | false =>
        exact ⟨⟨⟨f0, name0, [[]]⟩, fs.erase nm,
                [.remove nm] ++ [.openf name0], some .reopen⟩,
               by simp [rotateGo, hren, reopenGo], by simp, rfl,
               fun h => by cases h⟩

/-- C3 (amended, witness): `Count = 0`, base `"a"`, disk `{a}`. -/
theorem c3_count_le_one_amended_witness :
    ((0 : Int) < 1 → newGo true 0 0 ⟨['r'], []⟩ ['a'] = .rot ⟨0, ['a'], [['a']]⟩) ∧
    (∃ res, rotateGo ⟨0, ['a'], [['a']]⟩ [['a']] true 1 = some res ∧
       FsOp.remove ['a'] ∈ res.trace ∧ res.st.names = [[]] ∧
       (true = true → res.st.f = 1 ∧ res.err = none)) :=
  ⟨(c3_count_le_one_amended 0 0 ⟨['r'], []⟩ ['a']).1,
   (c3_count_le_one_amended 0 0 ⟨['r'], []⟩ ['a']).2.2
     ⟨0, ['a'], [['a']]⟩ [['a']] true 1 ['a'] rfl (by decide) (by decide)⟩

lemma writeMany_noop :
    ∀ (sizes : List Nat) (g : Nat) (bytes n : Int) (fs : Fs) (next : Nat) (openOk : Bool),
      writeMany ⟨g, .noop g, bytes, n⟩ fs next openOk sizes =
        some (⟨g, .noop g, bytes, n + ((sizes.sum : Nat) : Int)⟩, fs, [],
              List.replicate sizes.length none) := by
  intro sizes
  induction sizes with
  | nil => intro g bytes n fs next openOk; simp [writeMany]
  | cons b bs ih =>
      intro g bytes n fs next openOk
      by_cases hp : (bytes ≤ 0 ∨ n < bytes)
      · simp [writeMany, writeGo, fileRotate, hp, ih, List.replicate_succ]
        ring
      · simp [writeMany, writeGo, fileRotate, hp, ih, List.replicate_succ]
        ring

/-- C8: wrapping with directory resolution unsupported yields the
usable writer (same handle, noop rotator, counter seeded with the file
size) together with the `ErrNotSupported` sentinel — once, at wrap
time — and any subsequent sequence of writes leaves the filesystem
untouched (empty trace), keeps the original handle, reports no error,
and accumulates the byte counter by the bytes written. -/
theorem c8_unsupported_noop (f0 : Nat) (cBytes cCount : Int) (d : Dir) (base : Name)
    (size : Int) (fs : Fs) (sizes : List Nat) (next : Nat) (openOk : Bool) :
    wrapGo false f0 cBytes cCount d base size =
      some (⟨f0, .noop f0, cBytes, size⟩, true) ∧
    writeMany ⟨f0, .noop f0, cBytes, size⟩ fs next openOk sizes =
      some (⟨f0, .noop f0, cBytes, size + ((sizes.sum : Nat) : Int)⟩, fs, [],
            List.replicate sizes.length none) :=
  ⟨by simp [wrapGo, newGo], writeMany_noop sizes f0 cBytes size fs next openOk⟩

end Rotate
